import Mathlib

set_option linter.unusedVariables false

/-!
Verification of the token-demo overlay subsystem of the demo-day repository:
the topic manager (`identifyAdmissibleOutputs`), the lookup service
(`outputAdmittedByTopic`, `outputSpent`, `lookup`) and the Mongo-backed
storage (`storeRecord`, `deleteRecord`, `findByOutpoint`).

The transaction-graph parser, PushDrop output codec, UTF-8 conversion,
DER signature parsing and ECDSA verification are external collaborators
supplied by the SDK; following the design they are treated as supplied
primitives and the development is parameterised over them (`Codec`,
`LookupEnv`).  The repository functions themselves are translated below.
-/

namespace DemoDay

/-- Byte arrays (JS `number[]`). -/
abbrev Bytes := List Nat

/-- JS strings, modelled as their sequence of characters. -/
abbrev Str := List Char

/-- Result of `PushDrop.decode`: ordered data fields (the trailing
signature is the last element) plus the embedded locking public key. -/
structure PushDropResult where
  fields : List Bytes
  lockingPublicKey : Option Nat
deriving DecidableEq, Repr

/-- One transaction output as consumed by the topic manager. -/
structure TxOutput where
  lockingScript : Bytes
deriving DecidableEq, Repr

/-- Parsed transaction: the topic manager only ever reads `outputs`. -/
structure Transaction where
  outputs : List TxOutput
deriving DecidableEq, Repr

/-- Supplied primitives used by `identifyAdmissibleOutputs`:
transaction parsing (`Transaction.fromBEEF`), the PushDrop codec,
UTF-8 decoding, DER signature parsing (`Signature.fromDER`) and
public-key signature verification.  `none` models a thrown exception. -/
structure Codec where
  fromBEEF : Bytes → Option Transaction
  decode : Bytes → Option PushDropResult
  toUTF8 : Bytes → Str
  fromDER : Bytes → Option Nat
  verify : Nat → Bytes → Nat → Bool

/-- Return value of `identifyAdmissibleOutputs`. -/
structure AdmittanceInstructions where
  outputsToAdmit : List Nat
  coinsToRetain : List Nat
deriving DecidableEq, Repr

/-- `result.fields.reduce((a, e) => [...a, ...e], [])`. -/
def concatFields (fs : List Bytes) : Bytes := fs.foldl (fun a e => a ++ e) []

/-- Per-output step of the loop body in `identifyAdmissibleOutputs`
(TokenDemoTopicManager.ts lines 38-62): decode the locking script, pop
the trailing signature, require exactly one remaining field, require the
UTF-8 message to have at least two characters, then verify the signature
over the concatenated remaining fields.  Any thrown error is caught by
the per-output `catch` and the output is simply not admitted. -/
def admitOutput (c : Codec) (script : Bytes) : Bool :=
  match c.decode script with
  | none => false
  | some result =>
    let signature := result.fields.getLast?
    let fields := result.fields.dropLast
    if fields.length ≠ 1 then false
    else if (c.toUTF8 (fields.headD [])).length < 2 then false
    else
      match result.lockingPublicKey, signature with
      | some pk, some sigBytes =>
        match c.fromDER sigBytes with
        | none => false
        | some sig => c.verify pk (concatFields fields) sig
      | _, _ => false

/-- The `for (const [index, output] of parsedTx.outputs.entries())` loop:
collects the indices of the outputs that pass `admitOutput`. -/
def admitLoop (c : Codec) (outs : List TxOutput) (idx : Nat) : List Nat :=
  match outs with
  | [] => []
  | o :: rest =>
    if admitOutput c o.lockingScript then idx :: admitLoop c rest (idx + 1)
    else admitLoop c rest (idx + 1)

/-- `identifyAdmissibleOutputs` (TokenDemoTopicManager.ts lines 22-81).
A parse failure, an empty output list, or zero admitted outputs all throw
inside the outer `try`, are caught, optionally logged, and the function
still returns the accumulated `outputsToAdmit` with empty
`coinsToRetain`.  `previousCoins` is only ever used for logging. -/
def identifyAdmissibleOutputs (c : Codec) (beef : Bytes)
    (previousCoins : List Nat) : AdmittanceInstructions :=
  match c.fromBEEF beef with
  | none => ⟨[], []⟩
  | some tx => ⟨admitLoop c tx.outputs 0, []⟩

/-- Membership in the admission loop: index `i` is collected starting
from counter `n` exactly when `i` is past `n` and the output at relative
position `i - n` passes the per-output step. -/
theorem mem_admitLoop (c : Codec) (outs : List TxOutput) (n i : Nat) :
    i ∈ admitLoop c outs n ↔
      ∃ k o, outs.get? k = some o ∧ i = n + k ∧
        admitOutput c o.lockingScript = true := by
  induction outs generalizing n with
  | nil => simp [admitLoop]
  | cons o rest ih =>
    cases h : admitOutput c o.lockingScript with
    | true =>
      rw [show admitLoop c (o :: rest) n = n :: admitLoop c rest (n + 1) from
        by simp [admitLoop, h]]
      simp only [List.mem_cons, ih]
      constructor
      · rintro (rfl | ⟨k, o', hget, rfl, hadm⟩)
        · exact ⟨0, o, rfl, by omega, h⟩
        · exact ⟨k + 1, o', hget, by omega, hadm⟩
      · rintro ⟨k, o', hget, rfl, hadm⟩
        cases k with
        | zero => left; simp at hget; omega
        | succ k => right; exact ⟨k, o', hget, by omega, hadm⟩
    | false =>
      rw [show admitLoop c (o :: rest) n = admitLoop c rest (n + 1) from
        by simp [admitLoop, h]]
      simp only [ih]
      constructor
      · rintro ⟨k, o', hget, rfl, hadm⟩
        exact ⟨k + 1, o', hget, by omega, hadm⟩
      · rintro ⟨k, o', hget, rfl, hadm⟩
        cases k with
        | zero =>
          simp at hget
          subst hget
          rw [h] at hadm
          exact absurd hadm (by simp)
        | succ k => exact ⟨k, o', hget, by omega, hadm⟩

/-- Membership in `outputsToAdmit`, in terms of the output at that index. -/
theorem mem_outputsToAdmit (c : Codec) (beef : Bytes) (prev : List Nat)
    (tx : Transaction) (hparse : c.fromBEEF beef = some tx) (j : Nat) :
    j ∈ (identifyAdmissibleOutputs c beef prev).outputsToAdmit ↔
      ∃ o, tx.outputs.get? j = some o ∧
        admitOutput c o.lockingScript = true := by
  simp only [identifyAdmissibleOutputs, hparse]
  rw [mem_admitLoop]
  constructor
  · rintro ⟨k, o, hget, rfl, hadm⟩
    exact ⟨o, by simpa using hget, hadm⟩
  · rintro ⟨o, hget, hadm⟩
    exact ⟨j, o, hget, by omega, hadm⟩

/-- A concrete instantiation of the supplied decode primitive, used to
evaluate the topic manager on explicit transactions.  Script `[1]` is a
well-signed one-field message output; `[2]` is the same output with a
signature that does not verify; `[4]` and `[5]` are well-formed
token-protocol outputs `[tokenId, 8-byte LE amount, JSON custom fields,
signature]` of amounts 300 and 200 for token id `X` (byte 88). -/
def demoDecode : Bytes → Option PushDropResult
  | [1] => some ⟨[[104, 105], [99]], some 1⟩
  | [2] => some ⟨[[104, 105], [98]], some 1⟩
  | [4] => some ⟨[[88], [44, 1, 0, 0, 0, 0, 0, 0], [123, 125], [99]], some 1⟩
  | [5] => some ⟨[[88], [200, 0, 0, 0, 0, 0, 0, 0], [123, 125], [99]], some 1⟩
  | _ => none

/-- Concrete supplied primitives for evaluation.  BEEF `[1]` parses to a
transaction with the bad-signature output followed by the good message
output; `[2]` to the good message output alone; `[3]` to the two
token-protocol outputs of the balanced transfer (amounts 300 and 200);
`[4]` to a single token-protocol output.  Signature id 99 verifies under
public key 1, signature id 98 does not. -/
def demoCodec : Codec where
  fromBEEF := fun b =>
    if b = [1] then some ⟨[⟨[2]⟩, ⟨[1]⟩]⟩
    else if b = [2] then some ⟨[⟨[1]⟩]⟩
    else if b = [3] then some ⟨[⟨[4]⟩, ⟨[5]⟩]⟩
    else if b = [4] then some ⟨[⟨[4]⟩]⟩
    else none
  decode := demoDecode
  toUTF8 := fun bs => bs.map Char.ofNat
  fromDER := fun bs => some (bs.headD 0)
  verify := fun pk _data s => pk == 1 && s == 99

/-- C9: for every input byte buffer, every behaviour of the supplied
primitives and every `previousCoins` list, including all error paths,
`identifyAdmissibleOutputs` returns a result whose `coinsToRetain` is
the empty list. -/
theorem identifyAdmissibleOutputs_coinsToRetain_empty
    (c : Codec) (beef : Bytes) (prev : List Nat) :
    (identifyAdmissibleOutputs c beef prev).coinsToRetain = [] := by
  unfold identifyAdmissibleOutputs
  cases c.fromBEEF beef <;> rfl

/-- If an output passes the per-output step, its trailing signature was
parsed and verified against the locking public key over the
concatenation of the remaining fields. -/
theorem admitOutput_true_verifies (c : Codec) (script : Bytes)
    (r : PushDropResult) (pk : Nat) (sb : Bytes) (s : Nat)
    (hdec : c.decode script = some r)
    (hpk : r.lockingPublicKey = some pk)
    (hsb : r.fields.getLast? = some sb)
    (hs : c.fromDER sb = some s)
    (hadm : admitOutput c script = true) :
    c.verify pk (concatFields r.fields.dropLast) s = true := by
  unfold admitOutput at hadm
  rw [hdec] at hadm
  simp only [hpk, hsb, hs] at hadm
  split at hadm
  · exact absurd hadm (by simp)
  · split at hadm
    · exact absurd hadm (by simp)
    · exact hadm

/-- C5: for every output of every transaction, if the trailing signature
does not verify against the locking public key over the
byte-concatenation of the remaining fields, that output's index never
appears in `outputsToAdmit`, regardless of the rest of the transaction. -/
theorem signature_gate (c : Codec) (beef : Bytes) (prev : List Nat)
    (tx : Transaction) (i : Nat) (out : TxOutput) (r : PushDropResult)
    (pk : Nat) (sb : Bytes) (s : Nat)
    (hparse : c.fromBEEF beef = some tx)
    (hout : tx.outputs.get? i = some out)
    (hdec : c.decode out.lockingScript = some r)
    (hpk : r.lockingPublicKey = some pk)
    (hsb : r.fields.getLast? = some sb)
    (hs : c.fromDER sb = some s)
    (hv : c.verify pk (concatFields r.fields.dropLast) s = false) :
    i ∉ (identifyAdmissibleOutputs c beef prev).outputsToAdmit := by
  intro hmem
  rw [mem_outputsToAdmit c beef prev tx hparse] at hmem
  obtain ⟨o, hget, hadm⟩ := hmem
  rw [hout] at hget
  cases hget
  have := admitOutput_true_verifies c out.lockingScript r pk sb s hdec hpk hsb hs hadm
  rw [hv] at this
  exact absurd this (by simp)

/-- Witness for C5 at a concrete input: the bad-signature output at
index 0 of BEEF `[1]` is not admitted. -/
theorem signature_gate_witness :
    (0 : Nat) ∉ (identifyAdmissibleOutputs demoCodec [1] []).outputsToAdmit :=
  signature_gate demoCodec [1] [] ⟨[⟨[2]⟩, ⟨[1]⟩]⟩ 0 ⟨[2]⟩
    ⟨[[104, 105], [98]], some 1⟩ 1 [98] 98
    (by decide) (by decide) (by decide) (by decide) (by decide) (by decide)
    (by decide)

/-- Erasing a later index leaves earlier positions unchanged. -/
theorem get?_eraseIdx_of_lt {α : Type} (l : List α) (i j : Nat) (h : j < i) :
    (l.eraseIdx i).get? j = l.get? j := by
  induction l generalizing i j with
  | nil => rfl
  | cons a t ih =>
    cases i with
    | zero => omega
    | succ i =>
      cases j with
      | zero => rfl
      | succ j => exact ih i j (by omega)

/-- Erasing an earlier index shifts later positions down by one. -/
theorem get?_eraseIdx_of_gt {α : Type} (l : List α) (i j : Nat)
    (h : i < j) (hi : i < l.length) :
    (l.eraseIdx i).get? (j - 1) = l.get? j := by
  induction l generalizing i j with
  | nil => simp at hi
  | cons a t ih =>
    cases i with
    | zero =>
      cases j with
      | zero => omega
      | succ j => simp [List.eraseIdx]
    | succ i =>
      cases j with
      | zero => omega
      | succ j =>
        have hj : j ≥ 1 := by omega
        simp only [List.eraseIdx]
        rw [show j + 1 - 1 = (j - 1) + 1 from by omega]
        simp only [List.get?]
        rw [ih i j (by omega) (by simpa using hi)]

/-- C6: a failure of the per-output step on output `i` is purely local:
for every other index `j`, admission of `j`'s output is the same as in a
transaction from which output `i` is absent (indices above `i` shifting
down by one); processing continues and the transaction is not aborted. -/
theorem local_failure_is_local (c : Codec) (beef beef' : Bytes)
    (prev prev' : List Nat) (tx tx' : Transaction) (i j : Nat)
    (out : TxOutput)
    (hparse : c.fromBEEF beef = some tx)
    (hparse' : c.fromBEEF beef' = some tx')
    (herase : tx'.outputs = tx.outputs.eraseIdx i)
    (hout : tx.outputs.get? i = some out)
    (hfail : admitOutput c out.lockingScript = false)
    (hne : j ≠ i) :
    (j ∈ (identifyAdmissibleOutputs c beef prev).outputsToAdmit ↔
      (if j < i then j else j - 1) ∈
        (identifyAdmissibleOutputs c beef' prev').outputsToAdmit) := by
  rw [mem_outputsToAdmit c beef prev tx hparse,
    mem_outputsToAdmit c beef' prev' tx' hparse']
  have hi : i < tx.outputs.length := by
    rcases List.get?_eq_some.mp hout with ⟨h, _⟩
    exact h
  by_cases hj : j < i
  · simp only [if_pos hj, herase, get?_eraseIdx_of_lt tx.outputs i j hj]
  · have hgt : i < j := by omega
    simp only [if_neg hj, herase, get?_eraseIdx_of_gt tx.outputs i j hgt hi]

/-- Witness for C6 at a concrete input: output 0 of BEEF `[1]` fails the
signature check, and the good output at index 1 is admitted exactly when
it is admitted at index 0 of BEEF `[2]`, which omits the failing output. -/
theorem local_failure_is_local_witness :
    ((1 : Nat) ∈ (identifyAdmissibleOutputs demoCodec [1] []).outputsToAdmit ↔
      (0 : Nat) ∈ (identifyAdmissibleOutputs demoCodec [2] []).outputsToAdmit) := by
  have h := local_failure_is_local demoCodec [1] [2] [] []
    ⟨[⟨[2]⟩, ⟨[1]⟩]⟩ ⟨[⟨[1]⟩]⟩ 0 1 ⟨[2]⟩
    (by decide) (by decide) (by decide) (by decide) (by decide) (by decide)
  simpa using h

/-- C1 (code divergence): BEEF `[3]` is a balanced transfer of token `X`
(retained input amount 500 signalled by `previousCoins = [0]`, outputs
300 and 200), yet the code admits neither output: the shipped
`identifyAdmissibleOutputs` requires exactly one data field per output
and performs no per-token balance accounting at all. -/
theorem balanced_transfer_not_admitted :
    identifyAdmissibleOutputs demoCodec [3] [0] = ⟨[], []⟩ := by decide

/-- C2 (code divergence): a well-formed token-protocol output with three
data fields plus a trailing signature (BEEF `[4]`) is skipped by the
validator, while a one-field message output (BEEF `[2]`) is admitted:
the shipped decode step requires exactly one data field and never reads
a tokenId, an amount, or JSON custom fields. -/
theorem token_output_skipped_message_admitted :
    identifyAdmissibleOutputs demoCodec [4] [] = ⟨[], []⟩ ∧
      identifyAdmissibleOutputs demoCodec [2] [] = ⟨[0], []⟩ := by
  constructor <;> decide

/-- Decoded token details as persisted by the lookup service
(types.ts `TokenDemoDetails`); `customFields` is an opaque JSON document. -/
structure TokenDemoDetails where
  amount : Str
  tokenId : Str
  customFields : Option Str
deriving DecidableEq, Repr

/-- One document of the `TokenDemoRecords` Mongo collection
(types.ts `TokenDemoRecord`). -/
structure TokenDemoRecord where
  txid : Str
  outputIndex : Nat
  amount : Str
  tokenId : Str
  customFields : Option Str
  createdAt : Nat
deriving DecidableEq, Repr

/-- Projection returned by the find queries (types.ts `UTXOReference`). -/
structure UTXOReference where
  txid : Str
  outputIndex : Nat
deriving DecidableEq, Repr

/-- `storeRecord` (TokenDemoStorage.ts lines 32-39): a plain
`insertOne` appending a new document; `now` is the `new Date()`
timestamp taken at indexing time. -/
def storeRecord (recs : List TokenDemoRecord) (txid : Str)
    (outputIndex : Nat) (d : TokenDemoDetails) (now : Nat) :
    List TokenDemoRecord :=
  recs ++ [⟨txid, outputIndex, d.amount, d.tokenId, d.customFields, now⟩]

/-- `deleteRecord` (TokenDemoStorage.ts lines 47-49): `deleteOne`
removes the first document matching the outpoint, if any. -/
def deleteRecord (recs : List TokenDemoRecord) (txid : Str)
    (outputIndex : Nat) : List TokenDemoRecord :=
  match recs with
  | [] => []
  | r :: rest =>
    if r.txid = txid ∧ r.outputIndex = outputIndex then rest
    else r :: deleteRecord rest txid outputIndex

/-- JS `String.prototype.split` with separator a dot: splits into the
(possibly empty) runs between dots; the empty string yields one empty
component, as in JS. -/
def splitOnDot : Str → List Str
  | [] => [[]]
  | c :: rest =>
    if c = '.' then [] :: splitOnDot rest
    else
      match splitOnDot rest with
      | [] => [[c]]
      | s :: ss => (c :: s) :: ss

/-- JS `Number(s)` restricted to the values reachable here: a string of
decimal digits evaluates to the corresponding natural number (the empty
string to 0, as in JS); anything else is NaN, modelled as `none`, which
compares unequal to every stored `outputIndex`. -/
def jsNumberNat (s : Str) : Option Nat :=
  if s.all (fun c => c.isDigit) then
    some (s.foldl (fun n c => 10 * n + (c.toNat - 48)) 0)
  else none

/-- The destructuring `const [txid, outputIndex] = outpoint.split('.')`
followed by `Number(outputIndex)` in `findByOutpoint`. -/
def parseOutpoint (outpoint : Str) : Str × Option Nat :=
  let parts := splitOnDot outpoint
  (parts.headD [], (parts.get? 1).bind jsNumberNat)

/-- `findByOutpoint` (TokenDemoStorage.ts lines 60-75): split the
outpoint, filter the collection on the exact `txid` and numeric
`outputIndex`, and project each match to a `UTXOReference`. -/
def findByOutpoint (recs : List TokenDemoRecord) (outpoint : Str) :
    List UTXOReference :=
  let p := parseOutpoint outpoint
  (recs.filter (fun r => r.txid = p.1 ∧ some r.outputIndex = p.2)).map
    (fun r => ⟨r.txid, r.outputIndex⟩)

/-- Sample decoded details used in concrete storage runs. -/
def sampleDetails : TokenDemoDetails := ⟨"500".toList, "X".toList, none⟩

/-- C3 is false of the code: `storeRecord` is a plain insert, so two
calls with the same `(txid, outputIndex)` leave two records and the
point lookup returns a duplicate, not at most one record. -/
theorem store_twice_duplicates :
    ¬ (findByOutpoint
        (storeRecord (storeRecord [] "a".toList 0 sampleDetails 1)
          "a".toList 0 sampleDetails 2)
        "a.0".toList).length ≤ 1 := by decide

/-- C3 (amended): `storeRecord` has insert semantics, not upsert: two
calls with the same `(txid, outputIndex)` add exactly two records, so a
point lookup finds two more records than before the calls. -/
theorem store_twice_adds_two_records (recs : List TokenDemoRecord)
    (txid : Str) (i : Nat) (d₁ d₂ : TokenDemoDetails) (t₁ t₂ : Nat)
    (op : Str) (h : parseOutpoint op = (txid, some i)) :
    (findByOutpoint
        (storeRecord (storeRecord recs txid i d₁ t₁) txid i d₂ t₂)
        op).length
      = (findByOutpoint recs op).length + 2 := by
  simp only [findByOutpoint, storeRecord, h, List.filter_append,
    List.map_append, List.length_append, List.append_assoc]
  norm_num [List.filter]

/-- Witness for the amended C3 at a concrete input: storing the same
outpoint twice into the empty index yields a lookup of length 2. -/
theorem store_twice_adds_two_records_witness :
    (findByOutpoint
        (storeRecord (storeRecord [] "a".toList 0 sampleDetails 1)
          "a".toList 0 sampleDetails 2)
        "a.0".toList).length
      = (findByOutpoint [] "a.0".toList).length + 2 :=
  store_twice_adds_two_records [] "a".toList 0 sampleDetails sampleDetails
    1 2 "a.0".toList (by decide)

/-- Number of stored records matching an outpoint. -/
def countMatching (recs : List TokenDemoRecord) (txid : Str) (i : Nat) : Nat :=
  (recs.filter (fun r => r.txid = txid ∧ r.outputIndex = i)).length

/-- C7 is false of the code in the presence of duplicates the code
itself can create: after two stores of the same outpoint, one
`deleteRecord` removes only the first match and `findByOutpoint` still
returns a record. -/
theorem delete_after_duplicate_not_empty :
    findByOutpoint
        (deleteRecord
          (storeRecord (storeRecord [] "a".toList 0 sampleDetails 1)
            "a".toList 0 sampleDetails 2)
          "a".toList 0)
        "a.0".toList ≠ [] := by decide

/-- C7 (amended): `deleteRecord` removes the first matching record only;
when at most one record matches the outpoint, `findByOutpoint`
afterwards returns the empty result, and deleting an outpoint with no
record is a no-op that leaves the index unchanged and does not error. -/
theorem delete_then_find_empty (recs : List TokenDemoRecord)
    (txid : Str) (i : Nat) (op : Str)
    (h : parseOutpoint op = (txid, some i)) :
    (countMatching recs txid i ≤ 1 →
      findByOutpoint (deleteRecord recs txid i) op = []) ∧
    (countMatching recs txid i = 0 → deleteRecord recs txid i = recs) := by
  constructor
  · intro hle
    have key : ∀ l : List TokenDemoRecord,
        (l.filter (fun r => r.txid = txid ∧ r.outputIndex = i)).length ≤ 1 →
        ((deleteRecord l txid i).filter
          (fun r => r.txid = txid ∧ r.outputIndex = i)) = [] := by
      intro l
      induction l with
      | nil => intro _; rfl
      | cons r rest ih =>
        intro hl
        by_cases hr : r.txid = txid ∧ r.outputIndex = i
        · rw [show deleteRecord (r :: rest) txid i = rest from by
            simp [deleteRecord, hr]]
          rw [List.filter_cons_of_pos (by simpa using hr)] at hl
          simp only [List.length_cons] at hl
          have : (rest.filter
              (fun r => r.txid = txid ∧ r.outputIndex = i)).length = 0 := by
            omega
          exact List.length_eq_zero.mp this
        · rw [show deleteRecord (r :: rest) txid i
              = r :: deleteRecord rest txid i from by
            simp [deleteRecord, hr]]
          rw [List.filter_cons_of_neg (by simpa using hr)] at hl ⊢
          exact ih hl
    simp only [findByOutpoint, h]
    have hpred :
        (fun r : TokenDemoRecord =>
          decide (r.txid = txid ∧ some r.outputIndex = some i))
          = (fun r : TokenDemoRecord =>
            decide (r.txid = txid ∧ r.outputIndex = i)) := by
      funext r
      simp
    rw [hpred, key recs hle]
    rfl
  · intro h0
    induction recs with
    | nil => rfl
    | cons r rest ih =>
      by_cases hr : r.txid = txid ∧ r.outputIndex = i
      · exfalso
        unfold countMatching at h0
        rw [List.filter_cons_of_pos (by simpa using hr)] at h0
        simp at h0
      · unfold countMatching at h0 ih
        rw [List.filter_cons_of_neg (by simpa using hr)] at h0
        rw [show deleteRecord (r :: rest) txid i
            = r :: deleteRecord rest txid i from by
          simp [deleteRecord, hr]]
        rw [ih h0]

/-- Witness for the amended C7 at a concrete input: with a single stored
record, deleting its outpoint empties the lookup, and deleting from the
empty index is a no-op. -/
theorem delete_then_find_empty_witness :
    findByOutpoint
        (deleteRecord (storeRecord [] "a".toList 0 sampleDetails 1)
          "a".toList 0)
        "a.0".toList = [] ∧
      deleteRecord [] "a".toList 0 = [] := by
  constructor
  · exact (delete_then_find_empty
      (storeRecord [] "a".toList 0 sampleDetails 1) "a".toList 0
      "a.0".toList (by decide)).1 (by decide)
  · exact (delete_then_find_empty [] "a".toList 0
      "a.0".toList (by decide)).2 (by decide)

/-- Admission payload delivered by the overlay host
(`OutputAdmittedByTopic`, admission mode `locking-script`). -/
structure OutputAdmittedByTopic where
  mode : Str
  topic : Str
  lockingScript : Bytes
  txid : Str
  outputIndex : Nat
deriving DecidableEq, Repr

/-- Supplied primitives used by the lookup service when indexing:
the PushDrop codec, `Utils.Reader.readUInt64LEBn` followed by `String`
conversion, UTF-8 decoding, and `JSON.parse` (the parsed document kept
opaque).  `none` models a thrown exception. -/
structure LookupEnv where
  decode : Bytes → Option PushDropResult
  readUInt64LEStr : Bytes → Option Str
  toUTF8 : Bytes → Str
  jsonParse : Str → Option Str

/-- Body of `outputAdmittedByTopic` (TokenDemoLookupServiceFactory.ts
lines 33-50), before the surrounding catch: reject a wrong mode, return
early on a foreign topic, decode the token, read field 1 as the amount,
parse field 2 as JSON, take field 0 as the tokenId, then call
`storeRecord`, whose outcome is the supplied `store` function. -/
def outputAdmittedByTopicBody (env : LookupEnv)
    (store : Str → Nat → TokenDemoDetails → Except Str Unit)
    (p : OutputAdmittedByTopic) : Except Str Unit :=
  if p.mode ≠ "locking-script".toList then .error "Invalid mode".toList
  else if p.topic ≠ "tm_tokendemo".toList then .ok ()
  else
    match env.decode p.lockingScript with
    | none => .error "decode threw".toList
    | some token =>
      match env.readUInt64LEStr ((token.fields.get? 1).getD []) with
      | none => .error "reader threw".toList
      | some amount =>
        match token.fields.get? 2 with
        | none => .error "field 2 missing".toList
        | some f2 =>
          match env.jsonParse (env.toUTF8 f2) with
          | none => .error "JSON parse threw".toList
          | some customFields =>
            let tokenId := env.toUTF8 ((token.fields.get? 0).getD [])
            store p.txid p.outputIndex ⟨amount, tokenId, some customFields⟩

/-- `outputAdmittedByTopic` as observed by its caller: the whole body is
wrapped in `try { ... } catch (err) { console.error(...) }`, so every
failure, including a rejected `storeRecord`, is swallowed after logging
and the promise resolves normally. -/
def outputAdmittedByTopic (env : LookupEnv)
    (store : Str → Nat → TokenDemoDetails → Except Str Unit)
    (p : OutputAdmittedByTopic) : Except Str Unit :=
  match outputAdmittedByTopicBody env store p with
  | .ok _ => .ok ()
  | .error _ => .ok ()

/-- Concrete lookup-service primitives matching `demoDecode`'s
token-protocol scripts. -/
def demoLookupEnv : LookupEnv where
  decode := demoDecode
  readUInt64LEStr := fun bs =>
    if bs = [44, 1, 0, 0, 0, 0, 0, 0] then some "300".toList else none
  toUTF8 := fun bs => bs.map Char.ofNat
  jsonParse := fun s =>
    if s = ([123, 125].map Char.ofNat) then some s else none

/-- A token-protocol admission payload for this topic whose locking
script decodes successfully. -/
def goodPayload : OutputAdmittedByTopic :=
  ⟨"locking-script".toList, "tm_tokendemo".toList, [4], "a".toList, 0⟩

/-- C4 is false of the code: with a failing store, the body does fail on
the `storeRecord` call, yet `outputAdmittedByTopic` resolves normally,
indistinguishable from a successful indexing — the storage error is not
propagated to the caller. -/
theorem store_failure_not_propagated :
    outputAdmittedByTopic demoLookupEnv
        (fun _ _ _ => .error "connection lost".toList) goodPayload
      = .ok () ∧
    outputAdmittedByTopicBody demoLookupEnv
        (fun _ _ _ => .error "connection lost".toList) goodPayload
      = .error "connection lost".toList ∧
    outputAdmittedByTopic demoLookupEnv
        (fun _ _ _ => .ok ()) goodPayload
      = .ok () := by
  refine ⟨rfl, rfl, rfl⟩

/-- C4 (amended): `outputAdmittedByTopic` never propagates any error to
its caller: for every payload, every behaviour of the supplied
primitives and every outcome of the `storeRecord` call, the call
resolves normally; a storage failure is only caught and logged. -/
theorem outputAdmittedByTopic_never_throws (env : LookupEnv)
    (store : Str → Nat → TokenDemoDetails → Except Str Unit)
    (p : OutputAdmittedByTopic) :
    outputAdmittedByTopic env store p = .ok () := by
  unfold outputAdmittedByTopic
  cases outputAdmittedByTopicBody env store p <;> rfl

/-- Spend notification payload (`OutputSpent`, spend notification mode
`none`). -/
structure OutputSpent where
  mode : Str
  topic : Str
  txid : Str
  outputIndex : Nat
deriving DecidableEq, Repr

/-- `outputSpent` (TokenDemoLookupServiceFactory.ts lines 61-67):
reject any mode other than `none` before looking at the topic; delete
the record only for topic `tm_tokendemo`.  The result records the
`deleteRecord` call performed, if any. -/
def outputSpent (p : OutputSpent) : Except Str (Option (Str × Nat)) :=
  if p.mode ≠ "none".toList then .error "Invalid mode".toList
  else if p.topic = "tm_tokendemo".toList then .ok (some (p.txid, p.outputIndex))
  else .ok none

/-- Effect of a spend notification on the stored records: the delete is
executed only when `outputSpent` reaches the `deleteRecord` call. -/
def applyOutputSpent (recs : List TokenDemoRecord) (p : OutputSpent) :
    List TokenDemoRecord :=
  match outputSpent p with
  | .ok (some (t, i)) => deleteRecord recs t i
  | _ => recs

/-- C10: a payload whose mode is not `none` makes `outputSpent` throw
`Invalid mode` before any topic comparison or deletion, leaving the
stored records unchanged; and a `deleteRecord` call happens exactly for
payloads with mode `none` and topic `tm_tokendemo`. -/
theorem outputSpent_mode_gate (p : OutputSpent)
    (recs : List TokenDemoRecord) :
    (p.mode ≠ "none".toList →
      outputSpent p = .error "Invalid mode".toList ∧
        applyOutputSpent recs p = recs) ∧
    ((∃ t i, outputSpent p = .ok (some (t, i))) ↔
      (p.mode = "none".toList ∧ p.topic = "tm_tokendemo".toList)) := by
  constructor
  · intro hmode
    have h1 : outputSpent p = .error "Invalid mode".toList := by
      unfold outputSpent
      rw [if_pos hmode]
    refine ⟨h1, ?_⟩
    unfold applyOutputSpent
    rw [h1]
  · constructor
    · rintro ⟨t, i, hok⟩
      unfold outputSpent at hok
      by_cases hmode : p.mode = "none".toList
      · rw [if_neg (not_not_intro hmode)] at hok
        by_cases htopic : p.topic = "tm_tokendemo".toList
        · exact ⟨hmode, htopic⟩
        · rw [if_neg htopic] at hok
          simp at hok
      · rw [if_pos hmode] at hok
        exact Except.noConfusion hok
    · rintro ⟨hmode, htopic⟩
      refine ⟨p.txid, p.outputIndex, ?_⟩
      unfold outputSpent
      rw [if_neg (not_not_intro hmode), if_pos htopic]

/-- Witness for C10 at concrete inputs: a `locking-script`-mode spend
payload is rejected with `Invalid mode` and deletes nothing, and a
`none`-mode payload for this topic performs a delete. -/
theorem outputSpent_mode_gate_witness :
    (outputSpent ⟨"locking-script".toList, "tm_tokendemo".toList,
        "a".toList, 0⟩
      = .error "Invalid mode".toList ∧
      applyOutputSpent [] ⟨"locking-script".toList, "tm_tokendemo".toList,
        "a".toList, 0⟩ = []) ∧
    (∃ t i, outputSpent ⟨"none".toList, "tm_tokendemo".toList,
        "a".toList, 0⟩ = .ok (some (t, i))) := by
  constructor
  · exact (outputSpent_mode_gate ⟨"locking-script".toList,
      "tm_tokendemo".toList, "a".toList, 0⟩ []).1 (by decide)
  · exact (outputSpent_mode_gate ⟨"none".toList, "tm_tokendemo".toList,
      "a".toList, 0⟩ []).2.mpr (by decide)

/-- Sort order accepted by the query surface. -/
inductive SortOrder where
  | asc
  | desc
deriving DecidableEq, Repr

/-- A JS `Date` value: its millisecond time, or `none` for an Invalid
Date (`isNaN(d.getTime())`).  `new Date(d)` preserves this value. -/
abbrev JSDate := Option Int

/-- The query object (types.ts `TokenDemoQuery`); absent fields are
`none`.  A present-but-invalid date is `some none`. -/
structure TokenDemoQuery where
  outpoint : Option Str
  tokenId : Option Str
  limit : Option Int
  skip : Option Int
  sortOrder : Option SortOrder
  startDate : Option JSDate
  endDate : Option JSDate
deriving DecidableEq, Repr

/-- A lookup question as received by the service. -/
structure LookupQuestion where
  service : Str
  query : TokenDemoQuery
deriving DecidableEq, Repr

/-- The storage call selected by `lookup`; an error means the question
was rejected and no storage operation is performed. -/
inductive LookupFormula where
  | byOutpoint (outpoint : Str)
  | byTokenId (tokenId : Str) (limit skip : Int) (sortOrder : Option SortOrder)
  | all (limit skip : Int) (sortOrder : Option SortOrder)
deriving DecidableEq, Repr

/-- JS truthiness of an optional string: present and non-empty. -/
def truthyStr (s : Option Str) : Bool :=
  match s with
  | none => false
  | some s => s ≠ []

/-- `lookup` (TokenDemoLookupServiceFactory.ts lines 83-113): validate
the question and route to `findByOutpoint`, `findByTokenId` or
`findAll`.  A falsy question or a foreign service id throws; `limit` and
`skip` default to 50 and 0 and must be non-negative; a present `Date`
whose time is NaN throws.  In JS a `Date` object is always truthy, so
the `startDate ? new Date(startDate) : undefined` guard passes every
present date, valid or not, to the `isNaN` check. -/
def lookup (question : Option LookupQuestion) : Except Str LookupFormula :=
  match question with
  | none => .error "A valid query must be provided!".toList
  | some q =>
    if q.service ≠ "ls_tokendemo".toList then
      .error "Lookup service not supported!".toList
    else
      let lim := q.query.limit.getD 50
      let skp := q.query.skip.getD 0
      if lim < 0 then .error "Limit must be a non-negative number".toList
      else if skp < 0 then .error "Skip must be a non-negative number".toList
      else if q.query.startDate = some none then
        .error "Invalid startDate provided!".toList
      else if q.query.endDate = some none then
        .error "Invalid endDate provided!".toList
      else if truthyStr q.query.outpoint then
        .ok (.byOutpoint (q.query.outpoint.getD []))
      else if truthyStr q.query.tokenId then
        .ok (.byTokenId (q.query.tokenId.getD []) lim skp q.query.sortOrder)
      else .ok (.all lim skp q.query.sortOrder)

/-- C8: `lookup` rejects with an error (it throws, never silently
coerces) every question whose service is not `ls_tokendemo`, every
query with a negative limit or negative skip, and every query whose
`startDate` or `endDate` is an invalid date; no storage operation is
performed in these cases, since no `LookupFormula` is produced. -/
theorem lookup_rejects_invalid (q : LookupQuestion)
    (h : q.service ≠ "ls_tokendemo".toList ∨ q.query.limit.getD 50 < 0 ∨
      q.query.skip.getD 0 < 0 ∨ q.query.startDate = some none ∨
      q.query.endDate = some none) :
    ∃ e, lookup (some q) = .error e := by
  simp only [lookup]
  by_cases hserv : q.service ≠ "ls_tokendemo".toList
  · exact ⟨_, by rw [if_pos hserv]⟩
  · rw [if_neg hserv]
    by_cases hlim : q.query.limit.getD 50 < 0
    · exact ⟨_, by rw [if_pos hlim]⟩
    · rw [if_neg hlim]
      by_cases hskip : q.query.skip.getD 0 < 0
      · exact ⟨_, by rw [if_pos hskip]⟩
      · rw [if_neg hskip]
        by_cases hstart : q.query.startDate = some none
        · exact ⟨_, by rw [if_pos hstart]⟩
        · rw [if_neg hstart]
          by_cases hend : q.query.endDate = some none
          · exact ⟨_, by rw [if_pos hend]⟩
          · exact absurd h (by push_neg; exact ⟨not_not.mp hserv,
              le_of_not_lt hlim, le_of_not_lt hskip, hstart, hend⟩)

/-- Witness for C8 at a concrete input: a question addressed to a
different lookup service is rejected with an error. -/
theorem lookup_rejects_invalid_witness :
    ∃ e, lookup (some ⟨"ls_helloworld".toList,
      ⟨none, none, none, none, none, none, none⟩⟩) = .error e :=
  lookup_rejects_invalid
    ⟨"ls_helloworld".toList, ⟨none, none, none, none, none, none, none⟩⟩
    (Or.inl (by decide))

end DemoDay
